import Mathlib

/-!
Verification of the FIX-style protocol codec and session layer of the
cTrader client library.  Go strings and byte slices are modelled as
`List Nat` (one entry per byte; all data handled by the library is ASCII,
so Go's UTF-8 encoding agrees with the byte-per-char view).  Go `int`
is modelled as `Int` (no overflow occurs at the sizes involved), and
`float64` order quantities/prices are modelled as exact rationals `ℚ`
(the fixed-precision `%.2f` / `%.5f` rendering is implemented on the
rational value; the claims settled here depend only on which fields are
emitted, not on binary-float rounding digits).
-/

/-- The SOH field delimiter byte `"\x01"` (the default delimiter used by
`NewRequestMessage` and `NewClient`). -/
def soh : Nat := 1

/-- Fuel-driven decimal rendering: most-significant digit first, as Go's
`%d` produces for a non-negative value.  `fuel` bounds the recursion. -/
def natToDecAux : Nat → Nat → List Nat
  | 0, _ => []
  | fuel + 1, n => if n < 10 then [n + 48] else natToDecAux fuel (n / 10) ++ [n % 10 + 48]

/-- Decimal rendering of a natural number (Go `fmt.Sprintf("%d", n)` for `n ≥ 0`). -/
def natToDec (n : Nat) : List Nat := natToDecAux (n + 1) n

/-- Go `fmt.Sprintf("%d", i)` for an `int` value (sign byte 45 = `-` for negatives). -/
def intToStr (i : Int) : List Nat := if i < 0 then 45 :: natToDec i.natAbs else natToDec i.natAbs

/-- Go `fmt.Sprintf("%03d", n)`: decimal digits left-padded with `0` (byte 48) to
width 3. -/
def pad3 (n : Nat) : List Nat :=
  let ds := natToDec n
  List.replicate (3 - ds.length) 48 ++ ds

/-- One encoded field `tag=value` (byte 61 is `=`).  Mirrors the
`fmt.Sprintf("%d=%s", ...)` shape used throughout the message builders. -/
def enc (tag : Nat) (value : List Nat) : List Nat := natToDec tag ++ [61] ++ value

/-- `strings.Join(fields, delimiter)` for the SOH delimiter. -/
def joinD : List (List Nat) → List Nat
  | [] => []
  | [f] => f
  | f :: rest => f ++ soh :: joinD rest

/-- Accumulating decimal parser: consumes digit bytes (48–57), failing on any
other byte.  Helper for the `strconv.Atoi` model. -/
def digitsVal : List Nat → Nat → Option Nat
  | [], acc => some acc
  | b :: t, acc => if 48 ≤ b ∧ b ≤ 57 then digitsVal t (acc * 10 + (b - 48)) else none

/-- Parse a non-empty all-digit string to a natural number. -/
def parseDigits (s : List Nat) : Option Nat :=
  match s with
  | [] => none
  | _ => digitsVal s 0

/-- Model of Go `strconv.Atoi`: optional sign byte (43 = `+`, 45 = `-`)
followed by at least one decimal digit.  (Overflow is not modelled; every
tag handled by the library is small.) -/
def goAtoi (s : List Nat) : Option Int :=
  match s with
  | [] => none
  | b :: rest =>
    if b = 43 then (parseDigits rest).map (fun n => (n : Int))
    else if b = 45 then (parseDigits rest).map (fun n => -(n : Int))
    else (parseDigits (b :: rest)).map (fun n => (n : Int))

/-- Floor of a rational, computed on the numerator/denominator pair. -/
def ratFloor (q : ℚ) : Int := Int.fdiv q.num (q.den : Int)

/-- Round to the nearest integer, ties to even (the rounding Go's `%f`
formatting applies). -/
def roundTiesEven (q : ℚ) : Int :=
  let f := ratFloor q
  let r := q - (f : ℚ)
  if r < 1 / 2 then f
  else if 1 / 2 < r then f + 1
  else if f % 2 = 0 then f else f + 1

/-- Model of Go `fmt.Sprintf("%.<prec>f", x)` on the exact rational value of
`x`: fixed-point rendering with `prec` fractional digits (byte 46 is `.`,
byte 45 a leading `-` for negatives). -/
def fmtFixed (prec : Nat) (q : ℚ) : List Nat :=
  let n := roundTiesEven (q * ((10 : ℚ) ^ prec))
  let ds := natToDec n.natAbs
  let padded := List.replicate ((prec + 1) - ds.length) 48 ++ ds
  (if n < 0 then [45] else []) ++
    padded.take (padded.length - prec) ++ [46] ++ padded.drop (padded.length - prec)

/-- `strings.Split(message, delimiter)` for a single-byte delimiter `d`. -/
def splitOnByte (d : Nat) : List Nat → List (List Nat)
  | [] => [[]]
  | b :: rest =>
    if b = d then [] :: splitOnByte d rest
    else
      match splitOnByte d rest with
      | [] => [[b]]
      | s :: ss => (b :: s) :: ss

/-- Split a segment at its first `=` byte, mirroring
`strings.Index(part, "=")` followed by the two slices `part[:i]` / `part[i+1:]`. -/
def splitFirstEq : List Nat → Option (List Nat × List Nat)
  | [] => none
  | b :: t =>
    if b = 61 then some ([], t)
    else (splitFirstEq t).map (fun p => (b :: p.1, p.2))

/-- The per-segment step of `Protocol.parseFields`: split at the first `=`
and parse the left side with `strconv.Atoi`; malformed segments yield `none`
and are dropped. -/
def parseSeg (part : List Nat) : Option (Int × List Nat) :=
  match splitFirstEq part with
  | none => none
  | some (tagStr, value) =>
    match goAtoi tagStr with
    | none => none
    | some tag => some (tag, value)

/-- The loop body of `Protocol.parseFields`: skip empty segments, drop
malformed ones, and append a parsed value to its tag's list (the Go
`fields[fieldNum] = append(fields[fieldNum], fieldValue)`). -/
def fieldsStep (fields : Int → List (List Nat)) (part : List Nat) : Int → List (List Nat) :=
  if part = [] then fields
  else
    match parseSeg part with
    | none => fields
    | some (tag, value) => fun t => if t = tag then fields t ++ [value] else fields t

/-- `Protocol.parseFields`: split the raw message on the delimiter, skip empty
segments, parse each `tag=value` segment, and accumulate values per tag in
order (the Go `map[int][]string` with `append`). -/
def parseFields (message : List Nat) : Int → List (List Nat) :=
  (splitOnByte soh message).foldl fieldsStep (fun _ => [])

/-- `sub` is an initial run of `s` (model of the prefix test used by
`strings.Index` / `strings.LastIndex`). -/
def leadsWith : List Nat → List Nat → Bool
  | [], _ => true
  | _ :: _, [] => false
  | a :: as, b :: bs => a = b && leadsWith as bs

/-- `strings.Index(s, sub)`: position of the first occurrence of `sub` in `s`. -/
def goIndexSub (sub : List Nat) : List Nat → Option Nat
  | [] => if leadsWith sub [] then some 0 else none
  | b :: t =>
    if leadsWith sub (b :: t) then some 0
    else (goIndexSub sub t).map (· + 1)

/-- `strings.LastIndex(s, sub)`: position of the last occurrence of `sub` in `s`. -/
def goLastIndexSub (sub : List Nat) : List Nat → Option Nat
  | [] => if leadsWith sub [] then some 0 else none
  | b :: t =>
    match goLastIndexSub sub t with
    | some r => some (r + 1)
    | none => if leadsWith sub (b :: t) then some 0 else none

/-- `Protocol.calculateChecksum`: sum of the byte values modulo 256. -/
def calculateChecksum (message : List Nat) : Nat := message.sum % 256

/-- The distinct error kinds produced by `Protocol.ValidateMessage` /
`Protocol.validateChecksum` (each corresponds to one distinct
`fmt.Errorf` message in the source). -/
inductive ValErr where
  | emptyMessage : ValErr
  | missingField (tag : Nat) : ValErr
  | checksumNotFound : ValErr
  | invalidChecksumFormat (s : List Nat) : ValErr
  | checksumMismatch (expected : Nat) (got : Int) : ValErr
deriving DecidableEq

/-- `Protocol.validateChecksum`: locate the last `"\x01" + "10="`, slice out
the transmitted checksum digits, parse them, and compare against the byte
sum of the message up to and including the delimiter before the checksum
field.  (When no delimiter follows the digits, Go computes
`checksumEnd = len(message) - checksumStart`, and the slice
`message[checksumStart:checksumEnd]` panics if that is smaller than
`checksumStart`; the list model's `take`/`drop` yields an empty slice
instead.  No claim exercises that branch.) -/
def validateChecksum (message : List Nat) : Except ValErr Unit :=
  match goLastIndexSub (soh :: [49, 48, 61]) message with
  | none => .error .checksumNotFound
  | some checksumIndex =>
    let checksumStart := checksumIndex + 4
    let checksumEnd :=
      match goIndexSub [soh] (message.drop checksumStart) with
      | none => message.length - checksumStart
      | some j => j + checksumStart
    let checksumStr := (message.take checksumEnd).drop checksumStart
    match goAtoi checksumStr with
    | none => .error (.invalidChecksumFormat checksumStr)
    | some checksum =>
      let messageBody := message.take (checksumIndex + 1)
      let calculated := calculateChecksum messageBody
      if (calculated : Int) ≠ checksum then .error (.checksumMismatch calculated checksum)
      else .ok ()

/-- `Protocol.ValidateMessage`: empty check, the four mandatory-field checks
in source order, then checksum validation (whose error the Go code wraps
with a text prefix; the wrapped error kind is preserved here). -/
def validateMessage (message : List Nat) : Except ValErr Unit :=
  if message = [] then .error .emptyMessage
  else
    let fields := parseFields message
    if fields 8 = [] then .error (.missingField 8)
    else if fields 9 = [] then .error (.missingField 9)
    else if fields 35 = [] then .error (.missingField 35)
    else if fields 10 = [] then .error (.missingField 10)
    else validateChecksum message

/-- The session `Config` record (`Config` in the source): protocol version
string, company/sub identifiers, credentials and heartbeat interval. -/
structure Config where
  beginString : List Nat
  senderCompID : List Nat
  targetCompID : List Nat
  targetSubID : List Nat
  senderSubID : List Nat
  username : List Nat
  password : List Nat
  heartBeat : Int
deriving DecidableEq

/-- One outgoing message variant together with its current field values:
exactly the nine request types handled by `Client.Send`'s type switch. -/
inductive Variant where
  | logonRequest (config : Config) (encryptionScheme : Int) (resetSeqNum : Bool)
  | heartbeat (config : Config) (testReqID : List Nat)
  | testRequest (config : Config) (testReqID : List Nat)
  | logoutRequest (config : Config)
  | orderMsg (config : Config) (clOrdID symbol side : List Nat) (orderQty : ℚ)
      (ordType : List Nat) (price : ℚ)
  | orderCancelRequest (config : Config) (origClOrdID orderID clOrdID : List Nat)
  | marketDataRequest (config : Config) (mdReqID subscriptionRequestType : List Nat)
      (marketDepth noMDEntryTypes : Int) (mdEntryType : List Nat) (noRelatedSym : Int)
      (symbol : List Nat)
  | securityListRequest (config : Config) (securityReqID securityListRequestType symbol : List Nat)
  | requestForPositions (config : Config) (posReqID posMaintRptID : List Nat)

/-- The `Config` embedded in a variant's `RequestMessage`. -/
def vconfig : Variant → Config
  | .logonRequest c .. => c
  | .heartbeat c _ => c
  | .testRequest c _ => c
  | .logoutRequest c => c
  | .orderMsg c .. => c
  | .orderCancelRequest c .. => c
  | .marketDataRequest c .. => c
  | .securityListRequest c .. => c
  | .requestForPositions c .. => c

/-- The wire message-type code passed to `NewRequestMessage` for each variant
(`"A"`, `"0"`, `"1"`, `"5"`, `"D"`, `"F"`, `"V"`, `"x"`, `"AN"`). -/
def messageType : Variant → List Nat
  | .logonRequest .. => [65]
  | .heartbeat .. => [48]
  | .testRequest .. => [49]
  | .logoutRequest _ => [53]
  | .orderMsg .. => [68]
  | .orderCancelRequest .. => [70]
  | .marketDataRequest .. => [86]
  | .securityListRequest .. => [120]
  | .requestForPositions .. => [65, 78]

/-- Each variant's `GetBody`, one case per source method, with the same field
order and the same emptiness/zero guards.  `ts60` is the `time.Now()`
timestamp the `OrderMsg` body renders into tag 60. -/
def getBody : Variant → List Nat → List Nat
  | .logonRequest cfg es reset, _ =>
    joinD ([enc 98 (intToStr es), enc 108 (intToStr cfg.heartBeat)] ++
      (if reset then [enc 141 [89]] else []) ++
      [enc 553 cfg.username, enc 554 cfg.password])
  | .heartbeat _ tid, _ => if tid = [] then [] else enc 112 tid
  | .testRequest _ tid, _ => enc 112 tid
  | .logoutRequest _, _ => []
  | .orderMsg _ cl sym side qty ot price, ts60 =>
    joinD ([enc 11 cl, enc 55 sym, enc 54 side, enc 60 ts60,
      enc 38 (fmtFixed 2 qty), enc 40 ot] ++
      (if price = 0 then [] else [enc 44 (fmtFixed 5 price)]))
  | .orderCancelRequest _ orig oid cl, _ =>
    joinD ([enc 41 orig] ++ (if oid = [] then [] else [enc 37 oid]) ++ [enc 11 cl])
  | .marketDataRequest _ md sub depth nmdet met nrs sym, _ =>
    joinD [enc 262 md, enc 263 sub, enc 264 (intToStr depth), enc 267 (intToStr nmdet),
      enc 269 met, enc 146 (intToStr nrs), enc 55 sym]
  | .securityListRequest _ sr slrt sym, _ =>
    joinD ([enc 320 sr, enc 559 slrt] ++ (if sym = [] then [] else [enc 55 sym]))
  | .requestForPositions _ pr pm, _ =>
    joinD ([enc 710 pr] ++ (if pm = [] then [] else [enc 721 pm]))

/-- The ordered header field list built inside `RequestMessage.getHeader`:
MsgType, SenderCompID, TargetCompID, TargetSubID, SenderSubID, MsgSeqNum,
SendingTime.  `ts52` is the `time.Now()` timestamp rendered into tag 52. -/
def headerFields (v : Variant) (seq : Int) (ts52 : List Nat) : List (List Nat) :=
  [enc 35 (messageType v), enc 49 (vconfig v).senderCompID, enc 56 (vconfig v).targetCompID,
   enc 57 (vconfig v).targetSubID, enc 50 (vconfig v).senderSubID, enc 34 (intToStr seq),
   enc 52 ts52]

/-- `RequestMessage.getHeader`: join the header fields and prepend
`8=<BeginString>` and `9=<lenBody+len(fieldsJoined)+2>`. -/
def getHeader (v : Variant) (lenBody : Nat) (seq : Int) (ts52 : List Nat) : List Nat :=
  let fieldsJoined := joinD (headerFields v seq ts52)
  enc 8 (vconfig v).beginString ++ [soh] ++
    enc 9 (natToDec (lenBody + fieldsJoined.length + 2)) ++ [soh] ++ fieldsJoined

/-- `RequestMessage.getTrailer`: `10=` followed by the 3-digit modulo-256
byte sum of the header+body text. -/
def getTrailer (headerAndBody : List Nat) : List Nat :=
  [49, 48, 61] ++ pad3 (headerAndBody.sum % 256)

/-- `GetMessage(sequenceNumber)`: the duplicated builder shared verbatim by
every variant — header, optional body, closing delimiter, checksum trailer. -/
def getMessage (v : Variant) (seq : Int) (ts52 ts60 : List Nat) : List Nat :=
  let body := getBody v ts60
  let headerAndBody :=
    if body = [] then getHeader v 0 seq ts52 ++ [soh]
    else getHeader v body.length seq ts52 ++ [soh] ++ body ++ [soh]
  headerAndBody ++ getTrailer headerAndBody ++ [soh]

/-- The `(tag, value)` pairs the header writes, in order; projection of
`headerFields` used to state the round-trip claims. -/
def headerPairs (v : Variant) (seq : Int) (ts52 : List Nat) : List (Nat × List Nat) :=
  [(35, messageType v), (49, (vconfig v).senderCompID), (56, (vconfig v).targetCompID),
   (57, (vconfig v).targetSubID), (50, (vconfig v).senderSubID), (34, intToStr seq),
   (52, ts52)]

/-- The `(tag, value)` pairs each variant's body writes, in order; projection
of `getBody` (proved to match it in `getBody_eq_joinD`). -/
def bodyPairs : Variant → List Nat → List (Nat × List Nat)
  | .logonRequest cfg es reset, _ =>
    [(98, intToStr es), (108, intToStr cfg.heartBeat)] ++
      (if reset then [(141, [89])] else []) ++
      [(553, cfg.username), (554, cfg.password)]
  | .heartbeat _ tid, _ => if tid = [] then [] else [(112, tid)]
  | .testRequest _ tid, _ => [(112, tid)]
  | .logoutRequest _, _ => []
  | .orderMsg _ cl sym side qty ot price, ts60 =>
    [(11, cl), (55, sym), (54, side), (60, ts60), (38, fmtFixed 2 qty), (40, ot)] ++
      (if price = 0 then [] else [(44, fmtFixed 5 price)])
  | .orderCancelRequest _ orig oid cl, _ =>
    [(41, orig)] ++ (if oid = [] then [] else [(37, oid)]) ++ [(11, cl)]
  | .marketDataRequest _ md sub depth nmdet met nrs sym, _ =>
    [(262, md), (263, sub), (264, intToStr depth), (267, intToStr nmdet), (269, met),
     (146, intToStr nrs), (55, sym)]
  | .securityListRequest _ sr slrt sym, _ =>
    [(320, sr), (559, slrt)] ++ (if sym = [] then [] else [(55, sym)])
  | .requestForPositions _ pr pm, _ =>
    [(710, pr)] ++ (if pm = [] then [] else [(721, pm)])

/-- All `(tag, value)` pairs a variant writes into a message: header then body. -/
def allPairs (v : Variant) (seq : Int) (ts52 ts60 : List Nat) : List (Nat × List Nat) :=
  headerPairs v seq ts52 ++ bodyPairs v ts60

/-- Every `tag=value` segment of the built wire message in order, including
the `8=`, `9=` and `10=` fields. -/
def fullPairs (v : Variant) (seq : Int) (ts52 ts60 : List Nat) : List (Nat × List Nat) :=
  let body := getBody v ts60
  let fj := joinD (headerFields v seq ts52)
  let lenBody := if body = [] then 0 else body.length
  let hb :=
    if body = [] then getHeader v 0 seq ts52 ++ [soh]
    else getHeader v body.length seq ts52 ++ [soh] ++ body ++ [soh]
  [(8, (vconfig v).beginString), (9, natToDec (lenBody + fj.length + 2))] ++
    headerPairs v seq ts52 ++ bodyPairs v ts60 ++ [(10, pad3 (hb.sum % 256))]

/-- A byte string free of the delimiter byte (the caller contract on field
values; the library performs no escaping). -/
def sohFree (l : List Nat) : Prop := soh ∉ l

/-- All fields of a `Config` respect the no-delimiter caller contract. -/
def ConfigOK (c : Config) : Prop :=
  sohFree c.beginString ∧ sohFree c.senderCompID ∧ sohFree c.targetCompID ∧
    sohFree c.targetSubID ∧ sohFree c.senderSubID ∧ sohFree c.username ∧ sohFree c.password

/-- All string payloads of a variant (and its config) respect the
no-delimiter caller contract. -/
def VariantOK : Variant → Prop
  | .logonRequest cfg _ _ => ConfigOK cfg
  | .heartbeat cfg tid => ConfigOK cfg ∧ sohFree tid
  | .testRequest cfg tid => ConfigOK cfg ∧ sohFree tid
  | .logoutRequest cfg => ConfigOK cfg
  | .orderMsg cfg cl sym side _ ot _ =>
    ConfigOK cfg ∧ sohFree cl ∧ sohFree sym ∧ sohFree side ∧ sohFree ot
  | .orderCancelRequest cfg orig oid cl =>
    ConfigOK cfg ∧ sohFree orig ∧ sohFree oid ∧ sohFree cl
  | .marketDataRequest cfg md sub _ _ met _ sym =>
    ConfigOK cfg ∧ sohFree md ∧ sohFree sub ∧ sohFree met ∧ sohFree sym
  | .securityListRequest cfg sr slrt sym =>
    ConfigOK cfg ∧ sohFree sr ∧ sohFree slrt ∧ sohFree sym
  | .requestForPositions cfg pr pm => ConfigOK cfg ∧ sohFree pr ∧ sohFree pm

instance (l : List Nat) : Decidable (sohFree l) := by
  unfold sohFree
  infer_instance

instance (c : Config) : Decidable (ConfigOK c) := by
  unfold ConfigOK
  infer_instance

instance (v : Variant) : Decidable (VariantOK v) := by
  cases v <;> unfold VariantOK <;> infer_instance

/-- The connection state owned by `Client`: the connected flag and the
outbound sequence counter. -/
structure ClientState where
  isConnected : Bool
  messageSequenceNum : Int
deriving DecidableEq

/-- `Client.Connect` errors. -/
inductive ConnErr where
  | alreadyConnected : ConnErr
  | dialFailed : ConnErr
deriving DecidableEq

/-- `Client.Send` errors surfaced before any socket write. -/
inductive SendErr where
  | notConnected : SendErr
  | unsupportedType : SendErr
deriving DecidableEq

/-- The argument of `Client.Send`: either one of the nine known variants or
any other value (the type switch's `default` case). -/
inductive SendArg where
  | known (v : Variant)
  | unknown

/-- `strings.HasSuffix(s, suffix)`. -/
def hasSuffix (s suffix : List Nat) : Bool := leadsWith suffix.reverse s.reverse

/-- `Client.Connect`: fails if already connected; on a successful dial
(`dialOk`) sets the connected flag and resets the sequence counter to 0.
The socket itself is external; `dialOk` stands for the dial outcome. -/
def connect (c : ClientState) (dialOk : Bool) : ClientState × Except ConnErr Unit :=
  if c.isConnected then (c, .error .alreadyConnected)
  else if dialOk then ({ isConnected := true, messageSequenceNum := 0 }, .ok ())
  else (c, .error .dialFailed)

/-- `Client.Send`: reject when not connected; otherwise increment the
sequence counter, then dispatch on the argument type — unknown types error
out (after the increment, as in the source), known variants build the wire
message, delimiter-terminate it and write it.  The socket write is modelled
as succeeding and the written bytes are returned. -/
def send (c : ClientState) (arg : SendArg) (ts52 ts60 : List Nat) :
    ClientState × Except SendErr (List Nat) :=
  if c.isConnected = false then (c, .error .notConnected)
  else
    let c' : ClientState := { c with messageSequenceNum := c.messageSequenceNum + 1 }
    match arg with
    | .unknown => (c', .error .unsupportedType)
    | .known v =>
      let m := getMessage v c'.messageSequenceNum ts52 ts60
      let m := if hasSuffix m [soh] then m else m ++ [soh]
      (c', .ok m)

/-- Consecutive `Send` calls of known variants (each with its two timestamp
strings); returns the final state and the successfully written wire
messages in order. -/
def sendAll (c : ClientState) : List (Variant × List Nat × List Nat) → ClientState × List (List Nat)
  | [] => (c, [])
  | (v, t52, t60) :: rest =>
    let step := send c (.known v) t52 t60
    let restRes := sendAll step.1 rest
    match step.2 with
    | .ok m => (restRes.1, m :: restRes.2)
    | .error _ => (restRes.1, restRes.2)

/-- The inner loop of `Client.findMessageEnd`: the first index `j ≥ start`
with `buffer[j]` equal to the delimiter byte. -/
def scanDelim (buffer : List Nat) (j : Nat) : Option Nat :=
  if h : j < buffer.length then
    if buffer.getD j 0 = soh then some j else scanDelim buffer (j + 1)
  else none
termination_by buffer.length - j

/-- The outer loop of `Client.findMessageEnd`: scan `i` upward while
`i < len(buffer)-4`, and at each `10=` marker run the inner delimiter scan
from `i+3`; the loop falls through to the next `i` when no delimiter
follows. -/
def scanMarker (buffer : List Nat) (i : Nat) : Int :=
  if h : i < buffer.length - 4 then
    if buffer.getD i 0 = 49 ∧ buffer.getD (i + 1) 0 = 48 ∧ buffer.getD (i + 2) 0 = 61 then
      match scanDelim buffer (i + 3) with
      | some j => ((j : Int) + 1)
      | none => scanMarker buffer (i + 1)
    else scanMarker buffer (i + 1)
  else -1
termination_by buffer.length - 4 - i

/-- `Client.findMessageEnd`: index one past the delimiter closing the
checksum field, or -1 when no complete message is in the buffer. -/
def findMessageEnd (buffer : List Nat) : Int := scanMarker buffer 0

/-- The bytes `1`, `0`, `=` sit at positions `i`, `i+1`, `i+2` of the buffer. -/
def markerAt (buffer : List Nat) (i : Nat) : Prop :=
  buffer.getD i 0 = 49 ∧ buffer.getD (i + 1) 0 = 48 ∧ buffer.getD (i + 2) 0 = 61

instance (buffer : List Nat) (i : Nat) : Decidable (markerAt buffer i) := by
  unfold markerAt; infer_instance

/-- Modelled from the spec: the claim's reading of the framer — the scan
considers every position at which the three marker bytes `10=` fit inside
the buffer (`i + 2 < len`), with no further end-of-buffer margin. -/
def claimScan (buffer : List Nat) (i : Nat) : Int :=
  if h : i + 2 < buffer.length then
    if buffer.getD i 0 = 49 ∧ buffer.getD (i + 1) 0 = 48 ∧ buffer.getD (i + 2) 0 = 61 then
      match scanDelim buffer (i + 3) with
      | some j => ((j : Int) + 1)
      | none => claimScan buffer (i + 1)
    else claimScan buffer (i + 1)
  else -1
termination_by buffer.length - i

/-- Modelled from the spec: `findMessageEnd` as claim C9 words it — the
index one past the first delimiter following the first occurrence of `10=`
anywhere in the buffer, else -1. -/
def claimMessageEnd (buffer : List Nat) : Int := claimScan buffer 0

/-- A demo session config (delimiter-free ASCII values, as the caller
contract requires). -/
def cfgEx : Config where
  beginString := [70, 73, 88, 46, 52, 46, 52]
  senderCompID := [83]
  targetCompID := [84]
  targetSubID := [81]
  senderSubID := [82]
  username := [117, 115, 101, 114]
  password := [112, 97, 115, 115]
  heartBeat := 30

/-- A demo tag-52 timestamp, `20231101-10:00:00.000`. -/
def ts52Ex : List Nat :=
  [50, 48, 50, 51, 49, 49, 48, 49, 45, 49, 48, 58, 48, 48, 58, 48, 48, 46, 48, 48, 48]

/-- A demo tag-60 timestamp, `20231101-10:00:00`. -/
def ts60Ex : List Nat :=
  [50, 48, 50, 51, 49, 49, 48, 49, 45, 49, 48, 58, 48, 48, 58, 48, 48]

/-- The demo Logon message: `LogonRequest` with `ResetSeqNum = true` built at
sequence number 1. -/
def logonDemo : List Nat := getMessage (.logonRequest cfgEx 0 true) 1 ts52Ex ts60Ex

/-- `logonDemo` with its final checksum digit altered from `4` to `0`
(bytes `204` → `200` in the `10=` trailer). -/
def alteredLogon : List Nat := logonDemo.set (logonDemo.length - 2) 48

/-- A well-checksummed message whose BodyLength field carries the absurd
value 77777: `8=A|9=77777|35=A|10=040|`. -/
def bogusBodyLenMsg : List Nat :=
  [56, 61, 65, 1, 57, 61, 55, 55, 55, 55, 55, 1, 51, 53, 61, 65, 1, 49, 48, 61, 48, 52, 48, 1]

/-- A demo reader buffer holding one framed message, `8=X|10=007|`. -/
def demoBuf : List Nat := [56, 61, 88, 1, 49, 48, 61, 48, 48, 55, 1]

/-- A message missing BodyLength (`8=A|`), for exercising the validator. -/
def msgNo9 : List Nat := [56, 61, 65, 1]

/-- A message missing MsgType (`8=A|9=1|`), for exercising the validator. -/
def msgNo35 : List Nat := [56, 61, 65, 1, 57, 61, 49, 1]

/-- A message missing CheckSum (`8=A|9=1|35=A|`), for exercising the validator. -/
def msgNo10 : List Nat := [56, 61, 65, 1, 57, 61, 49, 1, 51, 53, 61, 65, 1]

/-- The spec's malformed-input scenario `35=A|49=SENDER|`. -/
def msgNo8 : List Nat :=
  [51, 53, 61, 65, 1, 52, 57, 61, 83, 69, 78, 68, 69, 82, 1]

/-- A demo list of consecutive sends: a bare Heartbeat then a Logout. -/
def entriesEx : List (Variant × List Nat × List Nat) :=
  [(.heartbeat cfgEx [], ts52Ex, ts60Ex), (.logoutRequest cfgEx, ts52Ex, ts60Ex)]

instance {ε α : Type} [DecidableEq ε] [DecidableEq α] : DecidableEq (Except ε α) := fun a b =>
  match a, b with
  | .ok x, .ok y =>
    if h : x = y then isTrue (by rw [h]) else isFalse (fun hh => h (by cases hh; rfl))
  | .error e, .error f =>
    if h : e = f then isTrue (by rw [h]) else isFalse (fun hh => h (by cases hh; rfl))
  | .ok _, .error _ => isFalse (fun hh => Except.noConfusion hh)
  | .error _, .ok _ => isFalse (fun hh => Except.noConfusion hh)

set_option maxRecDepth 16000

theorem digitsVal_append (a b : List Nat) (acc : Nat) :
    digitsVal (a ++ b) acc =
      match digitsVal a acc with
      | some v => digitsVal b v
      | none => none := by
  induction a generalizing acc with
  | nil => simp [digitsVal]
  | cons x t ih =>
    simp only [List.cons_append, digitsVal]
    split
    · exact ih _
    · rfl

theorem natToDecAux_digits :
    ∀ fuel n, n < fuel → ∀ b ∈ natToDecAux fuel n, 48 ≤ b ∧ b ≤ 57 := by
  intro fuel
  induction fuel with
  | zero => omega
  | succ fuel ih =>
    intro n hn b hb
    rw [natToDecAux] at hb
    by_cases h : n < 10
    · simp [h] at hb
      omega
    · simp [h] at hb
      rcases hb with hb | hb
      · exact ih (n / 10) (by omega) b hb
      · have := Nat.mod_lt n (show 0 < 10 by omega)
        omega

theorem natToDecAux_ne_nil : ∀ fuel n, n < fuel → natToDecAux fuel n ≠ [] := by
  intro fuel
  induction fuel with
  | zero => omega
  | succ fuel _ =>
    intro n _
    rw [natToDecAux]
    by_cases h : n < 10 <;> simp [h]

theorem natToDecAux_val :
    ∀ fuel n, n < fuel → ∀ acc,
      digitsVal (natToDecAux fuel n) acc =
        some (acc * 10 ^ (natToDecAux fuel n).length + n) := by
  intro fuel
  induction fuel with
  | zero => omega
  | succ fuel ih =>
    intro n hn acc
    rw [natToDecAux]
    by_cases h : n < 10
    · simp [h, digitsVal]
      omega
    · have hdiv : n / 10 < fuel := by
        have h1 : n / 10 < n := Nat.div_lt_self (by omega) (by omega)
        omega
      simp only [h, if_false, digitsVal_append]
      rw [ih (n / 10) hdiv acc]
      have hm : n % 10 < 10 := Nat.mod_lt n (by omega)
      simp [digitsVal, show 48 ≤ n % 10 + 48 ∧ n % 10 + 48 ≤ 57 by omega]
      have hdm : 10 * (n / 10) + n % 10 = n := Nat.div_add_mod n 10
      ring_nf
      omega

theorem natToDec_digits (n : Nat) : ∀ b ∈ natToDec n, 48 ≤ b ∧ b ≤ 57 :=
  natToDecAux_digits (n + 1) n (by omega)

theorem natToDec_ne_nil (n : Nat) : natToDec n ≠ [] :=
  natToDecAux_ne_nil (n + 1) n (by omega)

theorem digitsVal_natToDec (n : Nat) : digitsVal (natToDec n) 0 = some n := by
  have := natToDecAux_val (n + 1) n (by omega) 0
  simpa [natToDec] using this

theorem parseDigits_eq_digitsVal (s : List Nat) (hs : s ≠ []) :
    parseDigits s = digitsVal s 0 := by
  cases s with
  | nil => exact absurd rfl hs
  | cons b t => rfl

theorem goAtoi_of_digits (s : List Nat) (hs : s ≠ [])
    (hd : ∀ b ∈ s, 48 ≤ b ∧ b ≤ 57) (m : Nat) (hv : digitsVal s 0 = some m) :
    goAtoi s = some (m : Int) := by
  cases s with
  | nil => exact absurd rfl hs
  | cons b t =>
    have hb := hd b (by simp)
    have h43 : ¬(b = 43) := by omega
    have h45 : ¬(b = 45) := by omega
    rw [goAtoi, if_neg h43, if_neg h45, parseDigits_eq_digitsVal _ hs, hv]
    rfl

theorem goAtoi_natToDec (n : Nat) : goAtoi (natToDec n) = some (n : Int) :=
  goAtoi_of_digits _ (natToDec_ne_nil n) (natToDec_digits n) n (digitsVal_natToDec n)

theorem digitsVal_replicate48 (k : Nat) : digitsVal (List.replicate k 48) 0 = some 0 := by
  induction k with
  | zero => rfl
  | succ k ih => simpa [List.replicate_succ, digitsVal] using ih

theorem pad3_digits (n : Nat) : ∀ b ∈ pad3 n, 48 ≤ b ∧ b ≤ 57 := by
  intro b hb
  rw [pad3] at hb
  simp only [List.mem_append, List.mem_replicate] at hb
  rcases hb with hb | hb
  · omega
  · exact natToDec_digits n b hb

theorem pad3_ne_nil (n : Nat) : pad3 n ≠ [] := by
  rw [pad3]
  intro h
  rcases List.append_eq_nil.mp h with ⟨_, h2⟩
  exact natToDec_ne_nil n h2

theorem digitsVal_pad3 (n : Nat) : digitsVal (pad3 n) 0 = some n := by
  rw [pad3, digitsVal_append, digitsVal_replicate48]
  exact digitsVal_natToDec n

theorem goAtoi_pad3 (n : Nat) : goAtoi (pad3 n) = some (n : Int) :=
  goAtoi_of_digits _ (pad3_ne_nil n) (pad3_digits n) n (digitsVal_pad3 n)

theorem natToDec_no61 (n : Nat) : 61 ∉ natToDec n := by
  intro h
  have := natToDec_digits n 61 h
  omega

theorem natToDec_sohFree (n : Nat) : sohFree (natToDec n) := by
  intro h
  have := natToDec_digits n soh h
  rw [soh] at this
  omega

theorem intToStr_sohFree (i : Int) : sohFree (intToStr i) := by
  rw [intToStr]
  split
  · intro h
    rcases List.mem_cons.mp h with h | h
    · rw [soh] at h; omega
    · exact natToDec_sohFree _ h
  · exact natToDec_sohFree _

theorem pad3_sohFree (n : Nat) : sohFree (pad3 n) := by
  intro h
  have := pad3_digits n soh h
  rw [soh] at this
  omega

theorem fmtFixed_sohFree (prec : Nat) (q : ℚ) : sohFree (fmtFixed prec q) := by
  rw [fmtFixed]
  intro h
  simp only [List.mem_append] at h
  have hpad : ∀ b ∈ List.replicate ((prec + 1) - (natToDec (roundTiesEven (q * ((10 : ℚ) ^ prec))).natAbs).length) 48 ++ natToDec (roundTiesEven (q * ((10 : ℚ) ^ prec))).natAbs, b ≠ soh := by
    intro b hb
    rcases List.mem_append.mp hb with hb | hb
    · rw [List.mem_replicate] at hb
      rw [soh]; omega
    · intro hc
      exact natToDec_sohFree _ (hc ▸ hb)
  rcases h with ((h | h) | h) | h
  · split at h
    · rw [List.mem_singleton] at h
      rw [soh] at h
      omega
    · exact absurd h (List.not_mem_nil _)
  · exact hpad soh (List.take_subset _ _ h) rfl
  · rw [List.mem_singleton] at h
    rw [soh] at h
    omega
  · exact hpad soh (List.drop_subset _ _ h) rfl

theorem enc_sohFree (tag : Nat) (value : List Nat) (hv : sohFree value) :
    sohFree (enc tag value) := by
  rw [enc]
  intro h
  simp only [List.mem_append, List.mem_singleton] at h
  rcases h with (h | h) | h
  · exact natToDec_sohFree tag h
  · rw [soh] at h; omega
  · exact hv h

theorem enc_ne_nil (tag : Nat) (value : List Nat) : enc tag value ≠ [] := by
  rw [enc]
  intro h
  rcases List.append_eq_nil.mp h with ⟨h1, _⟩
  rcases List.append_eq_nil.mp h1 with ⟨h2, _⟩
  exact natToDec_ne_nil tag h2

theorem splitFirstEq_append (a v : List Nat) (ha : 61 ∉ a) :
    splitFirstEq (a ++ 61 :: v) = some (a, v) := by
  induction a with
  | nil => simp [splitFirstEq]
  | cons b t ih =>
    have hb : ¬(b = 61) := fun h => ha (by simp [h])
    rw [List.cons_append, splitFirstEq, if_neg hb, ih (fun h => ha (by simp [h]))]
    rfl

theorem enc_decomp (tag : Nat) (value : List Nat) :
    enc tag value = natToDec tag ++ 61 :: value := by
  rw [enc, List.append_assoc]
  rfl

theorem parseSeg_enc (tag : Nat) (value : List Nat) :
    parseSeg (enc tag value) = some ((tag : Int), value) := by
  rw [parseSeg, enc_decomp, splitFirstEq_append _ _ (natToDec_no61 tag)]
  simp [goAtoi_natToDec]

theorem parseSeg_nil : parseSeg [] = none := rfl

theorem splitOnByte_sep (d : Nat) (s rest : List Nat) (hs : d ∉ s) :
    splitOnByte d (s ++ d :: rest) = s :: splitOnByte d rest := by
  induction s with
  | nil => simp [splitOnByte]
  | cons b t ih =>
    have hb : ¬(b = d) := fun h => hs (by simp [h])
    rw [List.cons_append, splitOnByte, if_neg hb, ih (fun h => hs (by simp [h]))]

theorem splitOnByte_ne_nil (d : Nat) (l : List Nat) : splitOnByte d l ≠ [] := by
  cases l with
  | nil => simp [splitOnByte]
  | cons b t =>
    rw [splitOnByte]
    split
    · simp
    · split
      · simp
      · simp

theorem joinD_cons (f : List Nat) (rest : List (List Nat)) (h : rest ≠ []) :
    joinD (f :: rest) = f ++ soh :: joinD rest := by
  cases rest with
  | nil => exact absurd rfl h
  | cons g t => rfl

theorem joinD_append (a b : List (List Nat)) (ha : a ≠ []) (hb : b ≠ []) :
    joinD (a ++ b) = joinD a ++ soh :: joinD b := by
  induction a with
  | nil => exact absurd rfl ha
  | cons f t ih =>
    cases t with
    | nil => rw [List.cons_append, List.nil_append, joinD_cons f b hb]; rfl
    | cons g u =>
      rw [List.cons_append, joinD_cons f ((g :: u) ++ b) (by simp),
        joinD_cons f (g :: u) (by simp), ih (by simp)]
      simp

theorem splitOnByte_joinD (segs : List (List Nat)) (hne : segs ≠ [])
    (hfree : ∀ s ∈ segs, sohFree s) :
    splitOnByte soh (joinD segs ++ [soh]) = segs ++ [[]] := by
  induction segs with
  | nil => exact absurd rfl hne
  | cons s rest ih =>
    cases rest with
    | nil =>
      have : joinD [s] ++ [soh] = s ++ soh :: [] := rfl
      rw [this, splitOnByte_sep soh s [] (hfree s (by simp))]
      rfl
    | cons g u =>
      have hassoc : joinD (s :: g :: u) ++ [soh] = s ++ soh :: (joinD (g :: u) ++ [soh]) := by
        rw [joinD_cons s (g :: u) (by simp)]
        simp
      rw [hassoc, splitOnByte_sep soh s _ (hfree s (by simp)),
        ih (by simp) (fun x hx => hfree x (by simp [hx]))]
      rfl

theorem foldl_fieldsStep (parts : List (List Nat)) :
    ∀ (m : Int → List (List Nat)) (t : Int),
      (parts.foldl fieldsStep m) t =
        m t ++ ((parts.filterMap parseSeg).filter (fun p => p.1 = t)).map Prod.snd := by
  induction parts with
  | nil => intro m t; simp
  | cons p rest ih =>
    intro m t
    rw [List.foldl_cons, ih]
    cases hp : parseSeg p with
    | none =>
      have hstep : fieldsStep m p = m := by
        rw [fieldsStep]
        split
        · rfl
        · rw [hp]
      rw [hstep, List.filterMap_cons, hp]
    | some pr =>
      obtain ⟨tag, value⟩ := pr
      have hpn : p ≠ [] := by
        intro h
        rw [h, parseSeg_nil] at hp
        exact Option.noConfusion hp
      have hstep : fieldsStep m p = fun u => if u = tag then m u ++ [value] else m u := by
        rw [fieldsStep, if_neg hpn, hp]
      rw [hstep, List.filterMap_cons, hp]
      by_cases ht : t = tag
      · subst ht
        rw [List.filter_cons_of_pos (by simp), List.map_cons]
        simp
      · rw [List.filter_cons_of_neg (by simp [Ne.symm]; exact fun hh => ht hh.symm)]
        simp [ht]

theorem parseFields_eq_collect (message : List Nat) (t : Int) :
    parseFields message t =
      (((splitOnByte soh message).filterMap parseSeg).filter (fun p => p.1 = t)).map Prod.snd := by
  rw [parseFields, foldl_fieldsStep]
  rfl

theorem filterMap_parseSeg_map_enc (pairs : List (Nat × List Nat)) :
    (pairs.map (fun p => enc p.1 p.2)).filterMap parseSeg =
      pairs.map (fun p => ((p.1 : Int), p.2)) := by
  induction pairs with
  | nil => rfl
  | cons p rest ih =>
    rw [List.map_cons, List.filterMap_cons, parseSeg_enc, ih, List.map_cons]

theorem getBody_eq_joinD (v : Variant) (ts60 : List Nat) :
    getBody v ts60 = joinD ((bodyPairs v ts60).map (fun p => enc p.1 p.2)) := by
  cases v with
  | logonRequest cfg es reset =>
    by_cases hr : reset <;> simp [getBody, bodyPairs, hr]
  | heartbeat cfg tid =>
    by_cases ht : tid = [] <;> simp [getBody, bodyPairs, ht, joinD]
  | testRequest cfg tid => simp [getBody, bodyPairs, joinD]
  | logoutRequest cfg => rfl
  | orderMsg cfg cl sym side qty ot price =>
    by_cases hp : price = 0 <;> simp [getBody, bodyPairs, hp]
  | orderCancelRequest cfg orig oid cl =>
    by_cases ho : oid = [] <;> simp [getBody, bodyPairs, ho]
  | marketDataRequest cfg md sub depth nmdet met nrs sym =>
    simp [getBody, bodyPairs]
  | securityListRequest cfg sr slrt sym =>
    by_cases hs : sym = [] <;> simp [getBody, bodyPairs, hs, joinD]
  | requestForPositions cfg pr pm =>
    by_cases hp : pm = [] <;> simp [getBody, bodyPairs, hp, joinD]

theorem joinD_map_enc_eq_nil (pairs : List (Nat × List Nat))
    (h : joinD (pairs.map (fun p => enc p.1 p.2)) = []) : pairs = [] := by
  cases pairs with
  | nil => rfl
  | cons p rest =>
    cases rest with
    | nil => exact absurd h (enc_ne_nil p.1 p.2)
    | cons q u =>
      rw [List.map_cons, joinD_cons _ _ (by simp)] at h
      rcases List.append_eq_nil.mp h with ⟨h1, _⟩
      exact absurd h1 (enc_ne_nil p.1 p.2)

theorem headerFields_eq_map (v : Variant) (seq : Int) (ts52 : List Nat) :
    headerFields v seq ts52 = (headerPairs v seq ts52).map (fun p => enc p.1 p.2) := rfl

theorem headerFields_ne_nil (v : Variant) (seq : Int) (ts52 : List Nat) :
    headerFields v seq ts52 ≠ [] := by
  simp [headerFields]

theorem enc10_trailer (hb : List Nat) : getTrailer hb = enc 10 (pad3 (hb.sum % 256)) := rfl

theorem joinD_two_cons (x8 x9 : List Nat) (rest : List (List Nat)) (h : rest ≠ []) :
    joinD (x8 :: x9 :: rest) = x8 ++ [soh] ++ x9 ++ [soh] ++ joinD rest := by
  rw [joinD_cons x8 (x9 :: rest) (by simp), joinD_cons x9 rest h]
  simp

theorem joinD_mid_end (hF bS : List (List Nat)) (e10 : List Nat) (hhF : hF ≠ []) (hbS : bS ≠ []) :
    joinD (hF ++ bS ++ [e10]) = joinD hF ++ [soh] ++ joinD bS ++ [soh] ++ e10 := by
  rw [List.append_assoc, joinD_append hF (bS ++ [e10]) hhF (by simp),
    joinD_append bS [e10] hbS (by simp)]
  simp [joinD]

theorem joinD_end (hF : List (List Nat)) (e10 : List Nat) (hhF : hF ≠ []) :
    joinD (hF ++ [e10]) = joinD hF ++ [soh] ++ e10 := by
  rw [joinD_append hF [e10] hhF (by simp)]
  simp [joinD]

theorem getMessage_decomp (v : Variant) (seq : Int) (ts52 ts60 : List Nat) :
    getMessage v seq ts52 ts60 =
      joinD ((fullPairs v seq ts52 ts60).map (fun p => enc p.1 p.2)) ++ [soh] := by
  by_cases hb : getBody v ts60 = []
  · have hbp : bodyPairs v ts60 = [] :=
      joinD_map_enc_eq_nil _ (by rw [← getBody_eq_joinD, hb])
    have hmap : (fullPairs v seq ts52 ts60).map (fun p => enc p.1 p.2) =
        enc 8 (vconfig v).beginString ::
          enc 9 (natToDec (0 + (joinD (headerFields v seq ts52)).length + 2)) ::
          (headerFields v seq ts52 ++
            [enc 10 (pad3 ((getHeader v 0 seq ts52 ++ [soh]).sum % 256))]) := by
      rw [fullPairs, headerFields_eq_map]
      simp [hb, hbp]
    rw [getMessage, hmap, joinD_two_cons _ _ _ (by simp),
      joinD_end _ _ (headerFields_ne_nil v seq ts52), enc10_trailer]
    simp [hb, getHeader]
  · have hbp : bodyPairs v ts60 ≠ [] := by
      intro h
      rw [getBody_eq_joinD, h] at hb
      exact hb rfl
    have hbS : (bodyPairs v ts60).map (fun p => enc p.1 p.2) ≠ [] := by
      simpa using hbp
    have hmap : (fullPairs v seq ts52 ts60).map (fun p => enc p.1 p.2) =
        enc 8 (vconfig v).beginString ::
          enc 9 (natToDec ((getBody v ts60).length + (joinD (headerFields v seq ts52)).length + 2)) ::
          (headerFields v seq ts52 ++ (bodyPairs v ts60).map (fun p => enc p.1 p.2) ++
            [enc 10 (pad3 ((getHeader v (getBody v ts60).length seq ts52 ++ [soh] ++
              getBody v ts60 ++ [soh]).sum % 256))]) := by
      rw [fullPairs, headerFields_eq_map]
      simp [hb]
    rw [getMessage, hmap, joinD_two_cons _ _ _ (by simp),
      joinD_mid_end _ _ _ (headerFields_ne_nil v seq ts52) hbS, ← getBody_eq_joinD,
      enc10_trailer]
    simp [hb, getHeader]

theorem messageType_sohFree (v : Variant) : sohFree (messageType v) := by
  cases v <;> simp [messageType, sohFree, soh]

theorem vconfigOK (v : Variant) (hv : VariantOK v) : ConfigOK (vconfig v) := by
  cases v with
  | logonRequest cfg es reset => exact hv
  | heartbeat cfg tid => exact hv.1
  | testRequest cfg tid => exact hv.1
  | logoutRequest cfg => exact hv
  | orderMsg cfg cl sym side qty ot price => exact hv.1
  | orderCancelRequest cfg orig oid cl => exact hv.1
  | marketDataRequest cfg md sub depth nmdet met nrs sym => exact hv.1
  | securityListRequest cfg sr slrt sym => exact hv.1
  | requestForPositions cfg pr pm => exact hv.1

theorem headerPairs_sohFree (v : Variant) (seq : Int) (ts52 : List Nat)
    (hv : VariantOK v) (h52 : sohFree ts52) :
    ∀ p ∈ headerPairs v seq ts52, sohFree p.2 := by
  have hc := vconfigOK v hv
  intro p hp
  simp only [headerPairs, List.mem_cons, List.mem_singleton] at hp
  rcases hp with rfl | rfl | rfl | rfl | rfl | rfl | rfl | h
  · exact messageType_sohFree v
  · exact hc.2.1
  · exact hc.2.2.1
  · exact hc.2.2.2.1
  · exact hc.2.2.2.2.1
  · exact intToStr_sohFree seq
  · exact h52
  · exact absurd h (List.not_mem_nil p)

theorem bodyPairs_sohFree (v : Variant) (ts60 : List Nat)
    (hv : VariantOK v) (h60 : sohFree ts60) :
    ∀ p ∈ bodyPairs v ts60, sohFree p.2 := by
  intro p hp
  cases v with
  | logonRequest cfg es reset =>
    rcases hv with ⟨_, _, _, _, _, hu, hw⟩
    cases reset with
    | false =>
      simp only [bodyPairs, Bool.false_eq_true, if_false, List.append_nil, List.nil_append,
        List.mem_append, List.mem_cons, List.mem_singleton, List.not_mem_nil, or_false,
        false_or, or_assoc] at hp
      rcases hp with rfl | rfl | rfl | rfl
      · exact intToStr_sohFree es
      · exact intToStr_sohFree cfg.heartBeat
      · exact hu
      · exact hw
    | true =>
      simp only [bodyPairs, if_true, List.append_nil, List.nil_append, List.mem_append,
        List.mem_cons, List.mem_singleton, List.not_mem_nil, or_false, false_or,
        or_assoc] at hp
      rcases hp with rfl | rfl | rfl | rfl | rfl
      · exact intToStr_sohFree es
      · exact intToStr_sohFree cfg.heartBeat
      · simp [sohFree, soh]
      · exact hu
      · exact hw
  | heartbeat cfg tid =>
    by_cases ht : tid = [] <;> simp only [bodyPairs, ht, if_pos, if_neg,
      List.not_mem_nil, List.mem_singleton, if_true, if_false] at hp
    rcases hp with rfl
    exact hv.2
  | testRequest cfg tid =>
    simp only [bodyPairs, List.mem_singleton] at hp
    rcases hp with rfl
    exact hv.2
  | logoutRequest cfg => exact absurd hp (List.not_mem_nil p)
  | orderMsg cfg cl sym side qty ot price =>
    rcases hv with ⟨_, hcl, hsym, hside, hot⟩
    by_cases hpz : price = 0 <;>
      simp only [bodyPairs, hpz, if_pos, if_neg, List.mem_append, List.mem_cons,
        List.mem_singleton, List.not_mem_nil, or_false, if_true, if_false, or_assoc] at hp
    · rcases hp with rfl | rfl | rfl | rfl | rfl | rfl
      · exact hcl
      · exact hsym
      · exact hside
      · exact h60
      · exact fmtFixed_sohFree 2 qty
      · exact hot
    · rcases hp with rfl | rfl | rfl | rfl | rfl | rfl | rfl
      · exact hcl
      · exact hsym
      · exact hside
      · exact h60
      · exact fmtFixed_sohFree 2 qty
      · exact hot
      · exact fmtFixed_sohFree 5 price
  | orderCancelRequest cfg orig oid cl =>
    rcases hv with ⟨_, horig, hoid, hcl⟩
    by_cases ho : oid = [] <;>
      simp only [bodyPairs, ho, if_pos, if_neg, List.mem_append, List.mem_cons,
        List.mem_singleton, List.not_mem_nil, or_false, false_or, if_true, if_false,
        or_assoc] at hp
    · rcases hp with rfl | rfl
      · exact horig
      · exact hcl
    · rcases hp with rfl | rfl | rfl
      · exact horig
      · exact hoid
      · exact hcl
  | marketDataRequest cfg md sub depth nmdet met nrs sym =>
    rcases hv with ⟨_, hmd, hsub, hmet, hsym⟩
    simp only [bodyPairs, List.mem_cons, List.mem_singleton, or_assoc] at hp
    rcases hp with rfl | rfl | rfl | rfl | rfl | rfl | rfl | h
    · exact hmd
    · exact hsub
    · exact intToStr_sohFree depth
    · exact intToStr_sohFree nmdet
    · exact hmet
    · exact intToStr_sohFree nrs
    · exact hsym
    · exact absurd h (List.not_mem_nil p)
  | securityListRequest cfg sr slrt sym =>
    rcases hv with ⟨_, hsr, hslrt, hsym⟩
    by_cases hs : sym = [] <;>
      simp only [bodyPairs, hs, if_pos, if_neg, List.mem_append, List.mem_cons,
        List.mem_singleton, List.not_mem_nil, or_false, if_true, if_false, or_assoc] at hp
    · rcases hp with rfl | rfl
      · exact hsr
      · exact hslrt
    · rcases hp with rfl | rfl | rfl
      · exact hsr
      · exact hslrt
      · exact hsym
  | requestForPositions cfg pr pm =>
    rcases hv with ⟨_, hpr, hpm⟩
    by_cases hp2 : pm = [] <;>
      simp only [bodyPairs, hp2, if_pos, if_neg, List.mem_append, List.mem_cons,
        List.mem_singleton, List.not_mem_nil, or_false, if_true, if_false, or_assoc] at hp
    · rcases hp with rfl
      exact hpr
    · rcases hp with rfl | rfl
      · exact hpr
      · exact hpm

theorem fullPairs_sohFree (v : Variant) (seq : Int) (ts52 ts60 : List Nat)
    (hv : VariantOK v) (h52 : sohFree ts52) (h60 : sohFree ts60) :
    ∀ p ∈ fullPairs v seq ts52 ts60, sohFree p.2 := by
  intro p hp
  rw [fullPairs] at hp
  simp only [List.append_assoc, List.mem_append, List.mem_cons, List.mem_singleton,
    List.not_mem_nil, or_false] at hp
  rcases hp with (rfl | rfl) | hp | hp | rfl
  · exact (vconfigOK v hv).1
  · exact natToDec_sohFree _
  · exact headerPairs_sohFree v seq ts52 hv h52 p hp
  · exact bodyPairs_sohFree v ts60 hv h60 p hp
  · exact pad3_sohFree _

theorem fullPairs_ne_nil (v : Variant) (seq : Int) (ts52 ts60 : List Nat) :
    fullPairs v seq ts52 ts60 ≠ [] := by
  rw [fullPairs]
  simp

theorem parseFields_getMessage (v : Variant) (seq : Int) (ts52 ts60 : List Nat)
    (hv : VariantOK v) (h52 : sohFree ts52) (h60 : sohFree ts60) (t : Int) :
    parseFields (getMessage v seq ts52 ts60) t =
      ((fullPairs v seq ts52 ts60).filter (fun p => decide ((p.1 : Int) = t))).map Prod.snd := by
  rw [getMessage_decomp, parseFields_eq_collect]
  rw [splitOnByte_joinD _ (by
      intro h
      exact fullPairs_ne_nil v seq ts52 ts60 (List.map_eq_nil_iff.mp h))
    (by
      intro s hs
      rcases List.mem_map.mp hs with ⟨p, hp, rfl⟩
      exact enc_sohFree p.1 p.2 (fullPairs_sohFree v seq ts52 ts60 hv h52 h60 p hp))]
  rw [List.filterMap_append, filterMap_parseSeg_map_enc]
  have hnil : ([([] : List Nat)].filterMap parseSeg) = [] := by
    simp [parseSeg_nil]
  rw [hnil, List.append_nil, List.filter_map, List.map_map]
  congr 1

theorem allPairs_sub_fullPairs (v : Variant) (seq : Int) (ts52 ts60 : List Nat) :
    ∀ p ∈ allPairs v seq ts52 ts60, p ∈ fullPairs v seq ts52 ts60 := by
  intro p hp
  rw [allPairs] at hp
  rw [fullPairs]
  simp only [List.append_assoc, List.mem_append, List.mem_cons]
  rcases List.mem_append.mp hp with h | h <;> tauto

/-- Claim C4: for every message variant and every sequence number, decoding
the wire message built for that variant (splitting on the delimiter and
parsing `tag=value` pairs with `parseFields`) yields a field mapping that
contains, under the same integer tag, every field value the variant's
header and body wrote into the message.  The hypotheses are the library's
caller contract: field values must not contain the delimiter byte. -/
theorem c4_roundtrip (v : Variant) (seq : Int) (ts52 ts60 : List Nat)
    (hv : VariantOK v) (h52 : sohFree ts52) (h60 : sohFree ts60) :
    ∀ p ∈ allPairs v seq ts52 ts60,
      p.2 ∈ parseFields (getMessage v seq ts52 ts60) ((p.1 : Int)) := by
  intro p hp
  rw [parseFields_getMessage v seq ts52 ts60 hv h52 h60]
  exact List.mem_map_of_mem Prod.snd
    (List.mem_filter.mpr ⟨allPairs_sub_fullPairs v seq ts52 ts60 p hp, by simp⟩)

/-- Witness for C4: the demo Logon request at sequence number 1 satisfies the
no-delimiter contract, and every one of its written fields is recovered by
the decoder under its own tag. -/
theorem c4_roundtrip_witness :
    (VariantOK (.logonRequest cfgEx 0 true) ∧ sohFree ts52Ex ∧ sohFree ts60Ex) ∧
      (∀ p ∈ allPairs (.logonRequest cfgEx 0 true) 1 ts52Ex ts60Ex,
        p.2 ∈ parseFields (getMessage (.logonRequest cfgEx 0 true) 1 ts52Ex ts60Ex)
          ((p.1 : Int))) :=
  ⟨by decide, c4_roundtrip (.logonRequest cfgEx 0 true) 1 ts52Ex ts60Ex
    (by decide) (by decide) (by decide)⟩

theorem bodyPairs_no34 (v : Variant) (ts60 : List Nat) :
    ∀ p ∈ bodyPairs v ts60, p.1 ≠ 34 := by
  intro p hp
  cases v with
  | logonRequest cfg es reset =>
    cases reset <;>
      simp only [bodyPairs, Bool.false_eq_true, if_true, if_false, List.append_nil,
        List.nil_append, List.mem_append, List.mem_cons, List.mem_singleton,
        List.not_mem_nil, or_false, false_or, or_assoc] at hp
    · rcases hp with rfl | rfl | rfl | rfl <;> simp
    · rcases hp with rfl | rfl | rfl | rfl | rfl <;> simp
  | heartbeat cfg tid =>
    by_cases ht : tid = [] <;>
      simp only [bodyPairs, ht, if_true, if_false, List.not_mem_nil,
        List.mem_singleton] at hp
    rcases hp with rfl
    simp
  | testRequest cfg tid =>
    simp only [bodyPairs, List.mem_singleton] at hp
    rcases hp with rfl
    simp
  | logoutRequest cfg => exact absurd hp (List.not_mem_nil p)
  | orderMsg cfg cl sym side qty ot price =>
    by_cases hpz : price = 0 <;>
      simp only [bodyPairs, hpz, if_true, if_false, List.append_nil, List.mem_append,
        List.mem_cons, List.mem_singleton, List.not_mem_nil, or_false, or_assoc] at hp
    · rcases hp with rfl | rfl | rfl | rfl | rfl | rfl <;> simp
    · rcases hp with rfl | rfl | rfl | rfl | rfl | rfl | rfl <;> simp
  | orderCancelRequest cfg orig oid cl =>
    by_cases ho : oid = [] <;>
      simp only [bodyPairs, ho, if_true, if_false, List.append_nil, List.nil_append,
        List.mem_append, List.mem_cons, List.mem_singleton, List.not_mem_nil, or_false,
        false_or, or_assoc] at hp
    · rcases hp with rfl | rfl <;> simp
    · rcases hp with rfl | rfl | rfl <;> simp
  | marketDataRequest cfg md sub depth nmdet met nrs sym =>
    simp only [bodyPairs, List.mem_cons, List.mem_singleton, List.not_mem_nil,
      or_false, or_assoc] at hp
    rcases hp with rfl | rfl | rfl | rfl | rfl | rfl | rfl <;> simp
  | securityListRequest cfg sr slrt sym =>
    by_cases hs : sym = [] <;>
      simp only [bodyPairs, hs, if_true, if_false, List.append_nil, List.mem_append,
        List.mem_cons, List.mem_singleton, List.not_mem_nil, or_false, or_assoc] at hp
    · rcases hp with rfl | rfl <;> simp
    · rcases hp with rfl | rfl | rfl <;> simp
  | requestForPositions cfg pr pm =>
    by_cases hp2 : pm = [] <;>
      simp only [bodyPairs, hp2, if_true, if_false, List.append_nil, List.mem_append,
        List.mem_cons, List.mem_singleton, List.not_mem_nil, or_false, or_assoc] at hp
    · rcases hp with rfl
      simp
    · rcases hp with rfl | rfl <;> simp

theorem fullPairs_filter34 (v : Variant) (seq : Int) (ts52 ts60 : List Nat) :
    (fullPairs v seq ts52 ts60).filter (fun p => decide ((p.1 : Int) = 34)) =
      [(34, intToStr seq)] := by
  rw [fullPairs]
  rw [List.filter_append, List.filter_append, List.filter_append]
  have h1 : (([((8 : Nat), (vconfig v).beginString),
      (9, natToDec ((if getBody v ts60 = [] then 0 else (getBody v ts60).length) +
        (joinD (headerFields v seq ts52)).length + 2))] : List (Nat × List Nat)).filter
        (fun p => decide ((p.1 : Int) = 34))) = [] := by
    simp
  have h2 : (headerPairs v seq ts52).filter (fun p => decide ((p.1 : Int) = 34)) =
      [(34, intToStr seq)] := by
    rw [headerPairs]
    simp
  have h3 : (bodyPairs v ts60).filter (fun p => decide ((p.1 : Int) = 34)) = [] := by
    rw [List.filter_eq_nil_iff]
    intro p hp
    have := bodyPairs_no34 v ts60 p hp
    simp only [decide_eq_true_eq]
    intro h
    exact this (by exact_mod_cast h)
  have h4 : ([((10 : Nat), pad3 ((if getBody v ts60 = [] then
      getHeader v 0 seq ts52 ++ [soh]
      else getHeader v (getBody v ts60).length seq ts52 ++ [soh] ++ getBody v ts60 ++
        [soh]).sum % 256))].filter (fun p => decide ((p.1 : Int) = 34))) = [] := by
    simp
  rw [h1, h2, h3, h4]
  rfl

theorem parseFields_getMessage34 (v : Variant) (seq : Int) (ts52 ts60 : List Nat)
    (hv : VariantOK v) (h52 : sohFree ts52) (h60 : sohFree ts60) :
    parseFields (getMessage v seq ts52 ts60) 34 = [intToStr seq] := by
  rw [parseFields_getMessage v seq ts52 ts60 hv h52 h60 34, fullPairs_filter34]
  rfl

theorem getMessage_hasSuffix (v : Variant) (seq : Int) (ts52 ts60 : List Nat) :
    hasSuffix (getMessage v seq ts52 ts60) [soh] = true := by
  rw [getMessage, hasSuffix]
  simp [leadsWith]

theorem send_known (c : ClientState) (hc : c.isConnected = true) (v : Variant)
    (ts52 ts60 : List Nat) :
    send c (.known v) ts52 ts60 =
      ({ c with messageSequenceNum := c.messageSequenceNum + 1 },
        .ok (getMessage v (c.messageSequenceNum + 1) ts52 ts60)) := by
  rw [send, if_neg (by rw [hc]; simp)]
  simp [getMessage_hasSuffix]

theorem sendAll_spec (entries : List (Variant × List Nat × List Nat)) :
    ∀ k : Int,
      (∀ e ∈ entries, VariantOK e.1 ∧ sohFree e.2.1 ∧ sohFree e.2.2) →
      (sendAll ⟨true, k⟩ entries).2.length = entries.length ∧
      ∀ i (h : i < (sendAll ⟨true, k⟩ entries).2.length),
        parseFields ((sendAll ⟨true, k⟩ entries).2.get ⟨i, h⟩) 34 =
          [intToStr (k + i + 1)] := by
  induction entries with
  | nil =>
    intro k _
    constructor
    · rfl
    · intro i h
      exact absurd h (by simp [sendAll])
  | cons e rest ih =>
    intro k hok
    obtain ⟨v, t52, t60⟩ := e
    have he := hok (v, t52, t60) (by simp)
    have hsend := send_known ⟨true, k⟩ rfl v t52 t60
    have hstep : sendAll ⟨true, k⟩ ((v, t52, t60) :: rest) =
        ((sendAll ⟨true, k + 1⟩ rest).1,
          getMessage v (k + 1) t52 t60 :: (sendAll ⟨true, k + 1⟩ rest).2) := by
      rw [sendAll, hsend]
    have hrest := ih (k + 1) (fun x hx => hok x (by simp [hx]))
    rw [hstep]
    constructor
    · simp [hrest.1]
    · intro i h
      cases i with
      | zero =>
        simp only [List.get]
        have hz := parseFields_getMessage34 v (k + 1) t52 t60 he.1 he.2.1 he.2.2
        simpa using hz
      | succ j =>
        simp only [List.get]
        have hj : j < (sendAll ⟨true, k + 1⟩ rest).2.length := by
          simpa using h
        have := hrest.2 j hj
        rw [this]
        congr 2
        push_cast
        ring

/-- Claim C3: after a successful `Connect` the send sequence counter is 0 and
the connected flag set, and N consecutive successful `Send` calls with no
intervening reset encode `MsgSeqNum` (tag 34) values exactly 1, 2, …, N in
the sent wire messages.  The hypothesis is the caller contract that no field
value contains the delimiter byte. -/
theorem c3_sequence (s : Int) (entries : List (Variant × List Nat × List Nat))
    (hok : ∀ e ∈ entries, VariantOK e.1 ∧ sohFree e.2.1 ∧ sohFree e.2.2) :
    (connect ⟨false, s⟩ true).1.messageSequenceNum = 0 ∧
    (connect ⟨false, s⟩ true).1.isConnected = true ∧
    (sendAll (connect ⟨false, s⟩ true).1 entries).2.length = entries.length ∧
    ∀ i (h : i < (sendAll (connect ⟨false, s⟩ true).1 entries).2.length),
      parseFields ((sendAll (connect ⟨false, s⟩ true).1 entries).2.get ⟨i, h⟩) 34 =
        [intToStr ((i : Int) + 1)] := by
  have hc : (connect ⟨false, s⟩ true).1 = ⟨true, 0⟩ := rfl
  rw [hc]
  have hs := sendAll_spec entries 0 hok
  refine ⟨rfl, rfl, hs.1, fun i h => ?_⟩
  have := hs.2 i h
  simpa using this

/-- Witness for C3: connecting (from sequence counter 7) and sending a
Heartbeat then a Logout yields wire messages carrying `34=1` and `34=2`. -/
theorem c3_sequence_witness :
    (∀ e ∈ entriesEx, VariantOK e.1 ∧ sohFree e.2.1 ∧ sohFree e.2.2) ∧
    ((connect ⟨false, 7⟩ true).1.messageSequenceNum = 0 ∧
     (connect ⟨false, 7⟩ true).1.isConnected = true ∧
     (sendAll (connect ⟨false, 7⟩ true).1 entriesEx).2.length = entriesEx.length ∧
     ∀ i (h : i < (sendAll (connect ⟨false, 7⟩ true).1 entriesEx).2.length),
       parseFields ((sendAll (connect ⟨false, 7⟩ true).1 entriesEx).2.get ⟨i, h⟩) 34 =
         [intToStr ((i : Int) + 1)]) :=
  ⟨by decide, c3_sequence 7 entriesEx (by decide)⟩

theorem natToDecAux_len :
    ∀ fuel n k, n < fuel → n < 10 ^ (k + 1) → (natToDecAux fuel n).length ≤ k + 1 := by
  intro fuel
  induction fuel with
  | zero => omega
  | succ fuel ih =>
    intro n k hn hk
    rw [natToDecAux]
    by_cases h : n < 10
    · simp [h]
    · have hk1 : 1 ≤ k := by
        by_contra hc
        have : k = 0 := by omega
        rw [this] at hk
        norm_num at hk
        omega
      have hdiv : n / 10 < fuel := by
        have h1 : n / 10 < n := Nat.div_lt_self (by omega) (by omega)
        omega
      have hdivk : n / 10 < 10 ^ ((k - 1) + 1) := by
        rw [Nat.div_lt_iff_lt_mul (by omega)]
        have : 10 ^ (k - 1 + 1) * 10 = 10 ^ (k + 1) := by
          rw [← pow_succ]
          congr 1
          omega
        omega
      have := ih (n / 10) (k - 1) hdiv hdivk
      simp only [h, if_false, List.length_append, List.length_singleton]
      omega

theorem pad3_length (n : Nat) (h : n < 256) : (pad3 n).length = 3 := by
  have hlen : (natToDec n).length ≤ 3 := by
    have h1000 : n < 10 ^ (2 + 1) := by norm_num; omega
    exact natToDecAux_len (n + 1) n 2 (by omega) h1000
  rw [pad3]
  simp only [List.length_append, List.length_replicate]
  omega

/-- Claim C1: for every message variant and every sequence number (and any
header/body timestamps), the wire message produced by `GetMessage` ends with
a checksum trailer `10=NNN` where `NNN` is the modulo-256 byte sum of the
entire message prefix up to and including the delimiter immediately
preceding the `10=` field, rendered zero-padded to exactly 3 digits; the
prefix ends in the delimiter and the rendered digits parse back to the sum
(which equals `Protocol.calculateChecksum` of the prefix). -/
theorem c1_checksum_trailer (v : Variant) (seq : Int) (ts52 ts60 : List Nat) :
    ∃ p : List Nat,
      getMessage v seq ts52 ts60 = p ++ [49, 48, 61] ++ pad3 (p.sum % 256) ++ [soh] ∧
      p.getLast? = some soh ∧
      (pad3 (p.sum % 256)).length = 3 ∧
      goAtoi (pad3 (p.sum % 256)) = some ((p.sum % 256 : Nat) : Int) ∧
      p.sum % 256 = calculateChecksum p := by
  refine ⟨if getBody v ts60 = [] then getHeader v 0 seq ts52 ++ [soh]
    else getHeader v (getBody v ts60).length seq ts52 ++ [soh] ++ getBody v ts60 ++ [soh],
    ?_, ?_, ?_, ?_, ?_⟩
  · rw [getMessage, getTrailer]
    by_cases hb : getBody v ts60 = [] <;> simp [hb]
  · by_cases hb : getBody v ts60 = []
    · rw [if_pos hb]
      exact List.getLast?_concat _
    · rw [if_neg hb]
      exact List.getLast?_concat _
  · exact pad3_length _ (Nat.mod_lt _ (by omega))
  · exact goAtoi_pad3 _
  · rfl

/-- Claim C2 (code bug): for an empty-body variant (Logout, bare Heartbeat)
the builder encodes BodyLength as `len(fieldsJoined) + 2`, but the bytes
that actually stand between the BodyLength field and the checksum field are
`fieldsJoined ++ [delimiter]`, i.e. only `len(fieldsJoined) + 1` of them —
the unconditional `+2` accounts for two delimiters although the empty-body
message carries just one.  The decomposition below exhibits both numbers. -/
theorem c2_bodyLength_bug (v : Variant) (seq : Int) (ts52 ts60 : List Nat)
    (hempty : getBody v ts60 = []) :
    ∃ fj : List Nat,
      fj = joinD (headerFields v seq ts52) ∧
      getMessage v seq ts52 ts60 =
        enc 8 (vconfig v).beginString ++ [soh] ++ enc 9 (natToDec (fj.length + 2)) ++ [soh] ++
          (fj ++ [soh]) ++ getTrailer (getHeader v 0 seq ts52 ++ [soh]) ++ [soh] ∧
      (fj ++ [soh]).length = fj.length + 1 ∧
      fj.length + 2 ≠ fj.length + 1 := by
  refine ⟨joinD (headerFields v seq ts52), rfl, ?_, by simp, by omega⟩
  rw [getMessage, getHeader]
  simp [hempty]

/-- Witness for C2: the Logout message built at sequence 1 exhibits the
off-by-one BodyLength. -/
theorem c2_bodyLength_bug_witness :
    getBody (.logoutRequest cfgEx) ts60Ex = [] ∧
    (∃ fj : List Nat,
      fj = joinD (headerFields (.logoutRequest cfgEx) 1 ts52Ex) ∧
      getMessage (.logoutRequest cfgEx) 1 ts52Ex ts60Ex =
        enc 8 (vconfig (.logoutRequest cfgEx)).beginString ++ [soh] ++
          enc 9 (natToDec (fj.length + 2)) ++ [soh] ++ (fj ++ [soh]) ++
          getTrailer (getHeader (.logoutRequest cfgEx) 0 1 ts52Ex ++ [soh]) ++ [soh] ∧
      (fj ++ [soh]).length = fj.length + 1 ∧
      fj.length + 2 ≠ fj.length + 1) :=
  ⟨rfl, c2_bodyLength_bug (.logoutRequest cfgEx) 1 ts52Ex ts60Ex rfl⟩

/-- Claim C5: `ValidateMessage` returns the distinct empty-message error for
an empty message and a field-specific missing-field error for each of
BeginString (8), BodyLength (9), MsgType (35), CheckSum (10) (checked in
that order); when all four are present it returns exactly the checksum
validation outcome, so a transmitted checksum differing from the computed
modulo-256 sum surfaces as a checksum-mismatch error (altered demo Logon:
expected 204, transmitted 200); and a well-formed built Logon passes. -/
theorem c5_validator :
    validateMessage [] = .error .emptyMessage ∧
    (∀ msg : List Nat, msg ≠ [] → parseFields msg 8 = [] →
      validateMessage msg = .error (.missingField 8)) ∧
    (∀ msg : List Nat, msg ≠ [] → parseFields msg 8 ≠ [] → parseFields msg 9 = [] →
      validateMessage msg = .error (.missingField 9)) ∧
    (∀ msg : List Nat, msg ≠ [] → parseFields msg 8 ≠ [] → parseFields msg 9 ≠ [] →
      parseFields msg 35 = [] → validateMessage msg = .error (.missingField 35)) ∧
    (∀ msg : List Nat, msg ≠ [] → parseFields msg 8 ≠ [] → parseFields msg 9 ≠ [] →
      parseFields msg 35 ≠ [] → parseFields msg 10 = [] →
      validateMessage msg = .error (.missingField 10)) ∧
    (∀ msg : List Nat, msg ≠ [] → parseFields msg 8 ≠ [] → parseFields msg 9 ≠ [] →
      parseFields msg 35 ≠ [] → parseFields msg 10 ≠ [] →
      validateMessage msg = validateChecksum msg) ∧
    validateMessage alteredLogon = .error (.checksumMismatch 204 200) ∧
    validateMessage logonDemo = .ok () := by
  refine ⟨by decide, ?_, ?_, ?_, ?_, ?_, by decide, by decide⟩
  · intro msg hne h8
    simp [validateMessage, hne, h8]
  · intro msg hne h8 h9
    simp [validateMessage, hne, h8, h9]
  · intro msg hne h8 h9 h35
    simp [validateMessage, hne, h8, h9, h35]
  · intro msg hne h8 h9 h35 h10
    simp [validateMessage, hne, h8, h9, h35, h10]
  · intro msg hne h8 h9 h35 h10
    simp [validateMessage, hne, h8, h9, h35, h10]

/-- Witness for C5: each missing-field conjunct applied to a concrete
message missing exactly that field, and the checksum-delegation conjunct
applied to a message carrying all four fields. -/
theorem c5_validator_witness :
    validateMessage msgNo8 = .error (.missingField 8) ∧
    validateMessage msgNo9 = .error (.missingField 9) ∧
    validateMessage msgNo35 = .error (.missingField 35) ∧
    validateMessage msgNo10 = .error (.missingField 10) ∧
    validateMessage bogusBodyLenMsg = validateChecksum bogusBodyLenMsg :=
  ⟨c5_validator.2.1 msgNo8 (by decide) (by decide),
   c5_validator.2.2.1 msgNo9 (by decide) (by decide) (by decide),
   c5_validator.2.2.2.1 msgNo35 (by decide) (by decide) (by decide) (by decide),
   c5_validator.2.2.2.2.1 msgNo10 (by decide) (by decide) (by decide) (by decide) (by decide),
   c5_validator.2.2.2.2.2.1 bogusBodyLenMsg (by decide) (by decide) (by decide) (by decide)
     (by decide)⟩

/-- Claim C10: `ValidateMessage` never compares the transmitted BodyLength
value with the actual body byte count — any message carrying fields 8, 9,
35 and 10 whose checksum validates passes validation outright, no matter
what value the BodyLength field holds. -/
theorem c10_bodyLength_unchecked (msg : List Nat)
    (h8 : parseFields msg 8 ≠ []) (h9 : parseFields msg 9 ≠ [])
    (h35 : parseFields msg 35 ≠ []) (h10 : parseFields msg 10 ≠ [])
    (hcs : validateChecksum msg = .ok ()) :
    validateMessage msg = .ok () := by
  have hne : msg ≠ [] := by
    intro h
    rw [h] at h8
    exact h8 (by decide)
  simp [validateMessage, hne, h8, h9, h35, h10, hcs]

/-- Witness for C10: `8=A|9=77777|35=A|10=040|` has a wildly wrong
BodyLength yet a correct checksum, and validates successfully. -/
theorem c10_bodyLength_unchecked_witness :
    (parseFields bogusBodyLenMsg 8 ≠ [] ∧ parseFields bogusBodyLenMsg 9 ≠ [] ∧
      parseFields bogusBodyLenMsg 35 ≠ [] ∧ parseFields bogusBodyLenMsg 10 ≠ [] ∧
      validateChecksum bogusBodyLenMsg = .ok () ∧
      parseFields bogusBodyLenMsg 9 = [[55, 55, 55, 55, 55]]) ∧
    validateMessage bogusBodyLenMsg = .ok () :=
  ⟨by decide, c10_bodyLength_unchecked bogusBodyLenMsg (by decide) (by decide) (by decide)
    (by decide) (by decide)⟩

/-- Claim C6 (amended): a `Send` while not connected errors immediately with
the state — hence the counter — untouched and no bytes written; a `Send` of
an unknown argument type errors immediately with no bytes written, but the
sequence counter has already been incremented when the type switch falls
through to its default case. -/
theorem c6_amended (c : ClientState) (ts52 ts60 : List Nat) :
    (c.isConnected = false →
      ∀ arg : SendArg, send c arg ts52 ts60 = (c, .error .notConnected)) ∧
    (c.isConnected = true →
      send c .unknown ts52 ts60 =
        ({ c with messageSequenceNum := c.messageSequenceNum + 1 },
          .error .unsupportedType)) := by
  constructor
  · intro hc arg
    rw [send, if_pos hc]
  · intro hc
    rw [send, if_neg (by rw [hc]; simp)]

/-- Counterexample for C6 as stated: sending an unsupported argument on a
connected client with counter 5 errors out, yet the counter does not retain
its prior value — it is already 6. -/
theorem c6_counterexample :
    (send ⟨true, 5⟩ .unknown ts52Ex ts60Ex).2 = .error .unsupportedType ∧
    (send ⟨true, 5⟩ .unknown ts52Ex ts60Ex).1.messageSequenceNum = 6 ∧
    ((6 : Int) ≠ 5) := by
  refine ⟨rfl, by decide, by decide⟩

/-- Witness for C6 (amended) at concrete states: not-connected leaves the
counter at 7; unsupported-type on a connected client bumps 5 to 6. -/
theorem c6_amended_witness :
    send ⟨false, 7⟩ .unknown ts52Ex ts60Ex = (⟨false, 7⟩, .error .notConnected) ∧
    send ⟨true, 5⟩ .unknown ts52Ex ts60Ex = (⟨true, 6⟩, .error .unsupportedType) :=
  ⟨(c6_amended ⟨false, 7⟩ ts52Ex ts60Ex).1 rfl .unknown, by
    have := (c6_amended ⟨true, 5⟩ ts52Ex ts60Ex).2 rfl
    simpa using this⟩

/-- Counterexample for C7 as stated: `TestRequest.GetBody` encodes an empty
`TestReqID` unconditionally, so the built body is exactly the segment
`112=` with an empty value (bytes `[49, 49, 50, 61]`). -/
theorem c7_counterexample :
    getBody (.testRequest cfgEx []) ts60Ex = enc 112 [] ∧
    enc 112 [] = [49, 49, 50, 61] := ⟨rfl, by decide⟩

/-- Claim C7 (amended): only the fields guarded by an explicit emptiness
check — Heartbeat's TestReqID, OrderCancelRequest's OrderID,
SecurityListRequest's Symbol, RequestForPositions' PosMaintRptID — are
omitted from the body when empty; an unguarded field such as TestRequest's
TestReqID is still encoded as `tag=` with an empty value. -/
theorem c7_amended (cfg : Config) (orig cl sr slrt pr : List Nat) (ts60 : List Nat) :
    getBody (.heartbeat cfg []) ts60 = [] ∧
    getBody (.orderCancelRequest cfg orig [] cl) ts60 = enc 41 orig ++ [soh] ++ enc 11 cl ∧
    getBody (.securityListRequest cfg sr slrt []) ts60 = enc 320 sr ++ [soh] ++ enc 559 slrt ∧
    getBody (.requestForPositions cfg pr []) ts60 = enc 710 pr ∧
    getBody (.testRequest cfg []) ts60 = enc 112 [] := by
  refine ⟨rfl, ?_, ?_, ?_, rfl⟩
  · simp [getBody, joinD]
  · simp [getBody, joinD]
  · simp [getBody, joinD]

/-- Counterexample for C8 as stated: a market order (`OrdType = "1"`, not
limit-like) with a non-zero price still gets a `44=` Price field — the code
guards only on `Price != 0`, never on `OrdType`. -/
theorem c8_counterexample :
    getBody (.orderMsg cfgEx [67] [69] [49] (1 / 10) [49] (1105 / 1000)) ts60Ex =
      enc 11 [67] ++ [soh] ++ enc 55 [69] ++ [soh] ++ enc 54 [49] ++ [soh] ++
        enc 60 ts60Ex ++ [soh] ++ enc 38 (fmtFixed 2 (1 / 10)) ++ [soh] ++
        enc 40 [49] ++ [soh] ++ enc 44 (fmtFixed 5 (1105 / 1000)) ∧
    ((1105 / 1000 : ℚ) ≠ 0) := by
  constructor
  · simp [getBody, joinD]
  · norm_num

/-- Claim C8 (amended): the NewOrder body carries the Price field (tag 44)
if and only if the price is non-zero — irrespective of OrdType. -/
theorem c8_amended (cfg : Config) (cl sym side : List Nat) (qty : ℚ) (ot : List Nat)
    (price : ℚ) (ts60 : List Nat) :
    getBody (.orderMsg cfg cl sym side qty ot price) ts60 =
      joinD ((bodyPairs (.orderMsg cfg cl sym side qty ot price) ts60).map
        (fun p => enc p.1 p.2)) ∧
    (44 ∈ (bodyPairs (.orderMsg cfg cl sym side qty ot price) ts60).map Prod.fst ↔
      price ≠ 0) := by
  refine ⟨getBody_eq_joinD _ _, ?_⟩
  by_cases hp : price = 0 <;> simp [bodyPairs, hp]

theorem scanDelim_eq_none (buffer : List Nat) :
    ∀ fuel j, buffer.length - j ≤ fuel →
      (∀ k, j ≤ k → k < buffer.length → buffer.getD k 0 ≠ soh) →
      scanDelim buffer j = none := by
  intro fuel
  induction fuel with
  | zero =>
    intro j hle _
    rw [scanDelim, dif_neg (by omega)]
  | succ fuel ih =>
    intro j hle h
    rw [scanDelim]
    split
    · rename_i hj
      rw [if_neg (h j le_rfl hj)]
      exact ih (j + 1) (by omega) (fun k hk1 hk2 => h k (by omega) hk2)
    · rfl

theorem scanDelim_none (buffer : List Nat) (j : Nat)
    (h : ∀ k, j ≤ k → k < buffer.length → buffer.getD k 0 ≠ soh) :
    scanDelim buffer j = none :=
  scanDelim_eq_none buffer (buffer.length - j) j le_rfl h

theorem scanDelim_eq_some (buffer : List Nat) :
    ∀ fuel j j0, buffer.length - j ≤ fuel → j ≤ j0 → j0 < buffer.length →
      buffer.getD j0 0 = soh → (∀ k, j ≤ k → k < j0 → buffer.getD k 0 ≠ soh) →
      scanDelim buffer j = some j0 := by
  intro fuel
  induction fuel with
  | zero =>
    intro j j0 hle hj hj0 _ _
    omega
  | succ fuel ih =>
    intro j j0 hle hj hj0 hsoh hfirst
    rw [scanDelim, dif_pos (by omega)]
    by_cases hcur : buffer.getD j 0 = soh
    · have hjj : j = j0 := by
        by_contra hne
        exact hfirst j le_rfl (by omega) hcur
      rw [if_pos hcur, hjj]
    · rw [if_neg hcur]
      have hjlt : j < j0 := by
        by_contra hge
        have : j = j0 := by omega
        exact hcur (this ▸ hsoh)
      exact ih (j + 1) j0 (by omega) (by omega) hj0 hsoh
        (fun k hk1 hk2 => hfirst k (by omega) hk2)

theorem scanMarker_skip (buffer : List Nat) :
    ∀ fuel i i1, i1 - i ≤ fuel → i ≤ i1 → i1 ≤ buffer.length - 4 →
      (∀ x, i ≤ x → x < i1 → ¬ markerAt buffer x) →
      scanMarker buffer i = scanMarker buffer i1 := by
  intro fuel
  induction fuel with
  | zero =>
    intro i i1 hle hii _ _
    have : i = i1 := by omega
    rw [this]
  | succ fuel ih =>
    intro i i1 hle hii hib h
    by_cases hEq : i = i1
    · rw [hEq]
    · have hlt : i < i1 := by omega
      rw [scanMarker, dif_pos (by omega)]
      rw [if_neg (show ¬(buffer.getD i 0 = 49 ∧ buffer.getD (i + 1) 0 = 48 ∧
        buffer.getD (i + 2) 0 = 61) from h i le_rfl hlt)]
      exact ih (i + 1) i1 (by omega) (by omega) hib (fun x hx1 hx2 => h x (by omega) hx2)

theorem scanMarker_allNone (buffer : List Nat) :
    ∀ fuel i, buffer.length - 4 - i ≤ fuel →
      (∀ x, i ≤ x → x + 4 < buffer.length → ¬ markerAt buffer x) →
      scanMarker buffer i = -1 := by
  intro fuel
  induction fuel with
  | zero =>
    intro i hle _
    rw [scanMarker, dif_neg (by omega)]
  | succ fuel ih =>
    intro i hle h
    rw [scanMarker]
    split
    · rename_i hi
      rw [if_neg (show ¬(buffer.getD i 0 = 49 ∧ buffer.getD (i + 1) 0 = 48 ∧
        buffer.getD (i + 2) 0 = 61) from h i le_rfl (by omega))]
      exact ih (i + 1) (by omega) (fun x hx1 hx2 => h x (by omega) hx2)
    · rfl

theorem scanMarker_noDelimAfter (buffer : List Nat) :
    ∀ fuel i i1, buffer.length - 4 - i ≤ fuel → i1 ≤ i →
      (∀ k, i1 + 3 ≤ k → k < buffer.length → buffer.getD k 0 ≠ soh) →
      scanMarker buffer i = -1 := by
  intro fuel
  induction fuel with
  | zero =>
    intro i i1 hle _ _
    rw [scanMarker, dif_neg (by omega)]
  | succ fuel ih =>
    intro i i1 hle hi1 h
    rw [scanMarker]
    split
    · rename_i hi
      by_cases hm : buffer.getD i 0 = 49 ∧ buffer.getD (i + 1) 0 = 48 ∧
          buffer.getD (i + 2) 0 = 61
      · rw [if_pos hm, scanDelim_none buffer (i + 3)
          (fun k hk1 hk2 => h k (by omega) hk2)]
        exact ih (i + 1) i1 (by omega) (by omega) h
      · rw [if_neg hm]
        exact ih (i + 1) i1 (by omega) (by omega) h
    · rfl

/-- Claim C9 (amended): `findMessageEnd` returns the index one past the
first delimiter that follows the first occurrence of the `10=` marker
*starting at an index `i` with `i + 4 < len(buffer)`* (the outer loop bound
`i < len(buffer)-4` requires at least two bytes after the `=`); a marker
sitting within the last four bytes is never considered, and without a
considered marker followed by a delimiter the result is -1. -/
theorem c9_amended (buffer : List Nat) :
    ((∀ x, x + 4 < buffer.length → ¬ markerAt buffer x) → findMessageEnd buffer = -1) ∧
    (∀ i, i + 4 < buffer.length → markerAt buffer i →
      (∀ x, x < i → ¬ markerAt buffer x) →
      ((∀ k, k < buffer.length → i + 3 ≤ k → buffer.getD k 0 ≠ soh) →
        findMessageEnd buffer = -1) ∧
      (∀ j, j < buffer.length → i + 3 ≤ j → buffer.getD j 0 = soh →
        (∀ k, k < j → i + 3 ≤ k → buffer.getD k 0 ≠ soh) →
        findMessageEnd buffer = ((j : Int) + 1))) := by
  constructor
  · intro h
    exact scanMarker_allNone buffer (buffer.length - 4) 0 (by omega)
      (fun x _ hx4 => h x hx4)
  · intro i hi hm hfirst
    have hskip : findMessageEnd buffer = scanMarker buffer i := by
      rw [findMessageEnd]
      exact scanMarker_skip buffer i 0 i (by omega) (by omega) (by omega)
        (fun x _ hxi => hfirst x hxi)
    constructor
    · intro hnd
      rw [hskip]
      exact scanMarker_noDelimAfter buffer (buffer.length - 4 - i) i i (by omega) le_rfl
        (fun k hk1 hk2 => hnd k hk2 hk1)
    · intro j hj hij hsoh hfirstd
      rw [hskip, scanMarker, dif_pos (by omega),
        if_pos (show buffer.getD i 0 = 49 ∧ buffer.getD (i + 1) 0 = 48 ∧
          buffer.getD (i + 2) 0 = 61 from hm),
        scanDelim_eq_some buffer (buffer.length - (i + 3)) (i + 3) j le_rfl hij hj hsoh
          (fun k hk1 hk2 => hfirstd k hk2 hk1)]

/-- Counterexample for C9 as stated: in the buffer `10=\x01` the delimiter
at index 3 immediately follows the marker at index 0, so the claim demands
4 (as the spec-modelled `claimMessageEnd` computes), but `findMessageEnd`
returns -1 because its outer loop stops at `len(buffer)-4 = 0`. -/
theorem c9_counterexample :
    findMessageEnd [49, 48, 61, 1] = -1 ∧ claimMessageEnd [49, 48, 61, 1] = 4 ∧
      ((-1 : Int) ≠ 4) := by
  refine ⟨?_, ?_, by decide⟩
  · rw [findMessageEnd, scanMarker]
    norm_num
  · rw [claimMessageEnd, claimScan]
    norm_num [soh]
    rw [scanDelim]
    norm_num [soh]

/-- Witness for C9 (amended): on `8=X|10=007|` the marker at index 4 is
followed by the delimiter at index 10, so the framer yields 11; on
`10=00X` (marker at 0, no delimiter after it) it yields -1. -/
theorem c9_amended_witness :
    findMessageEnd demoBuf = 11 ∧ findMessageEnd [49, 48, 61, 48, 48, 88] = -1 :=
  ⟨((c9_amended demoBuf).2 4 (by decide) (by decide) (by decide)).2 10 (by decide)
      (by decide) (by decide) (by decide),
    ((c9_amended [49, 48, 61, 48, 48, 88]).2 0 (by decide) (by decide) (by decide)).1
      (by decide)⟩
